import Mathlib

/-!
Verification development for the LawChat repository.

This file gives a shallow embedding of the pure computational core of the
repository (query validation, chat-message assembly, message trimming for the
completion request, source formatting, system-prompt construction, the document
chunker, the ingestion run, and the per-session query flow of the app), and
proves or refutes the specification claims about them.

Python builtins are modelled explicitly: `py_strip` models `str.strip()`,
`py_lower` models `str.lower()`, `py_take_last n` models the slice `[-n:]`,
`py_range` models `range(start, stop, step)` for positive step, and
association lists with `dict_assign` / `dict_update` model Python dicts
(insertion-ordered, assignment overwrites).
-/

namespace LawChat

/-- Model of Python `str.strip()`: drop whitespace from both ends. -/
def py_strip (s : String) : String :=
  String.mk (((s.data.dropWhile Char.isWhitespace).reverse.dropWhile Char.isWhitespace).reverse)

/-- Model of Python `str.lower()`. -/
def py_lower (s : String) : String :=
  String.mk (s.data.map Char.toLower)

/-- Model of the Python slice `l[-n:]`: the last `n` elements (all of `l` when shorter). -/
def py_take_last (n : Nat) (l : List α) : List α :=
  l.drop (l.length - n)

/-- Model of Python `range(start, stop, step)` for `step > 0`. -/
def py_range (start stop step : Nat) : List Nat :=
  (List.range ((stop - start + step - 1) / step)).map (fun k => start + step * k)

/-- A chat message dict `{"role": ..., "content": ...}`. -/
structure ChatMessage where
  role : String
  content : String
deriving DecidableEq, Repr

/-- `search_features.validate_query`: rejects empty queries and queries whose
stripped length is below 3.  (The source contains no maximum-length check.) -/
def validate_query (query : String) : Bool :=
  if query == "" || (py_strip query).length < 3 then false else true

/-- `ai_services.prepare_chat_messages`: one manufactured system message, then
the last 4 non-system entries of the input history. -/
def prepare_chat_messages (user_messages : List ChatMessage) (system_prompt : String) :
    List ChatMessage :=
  let chat_messages : List ChatMessage := [⟨"system", system_prompt⟩]
  let user_assistant_messages := user_messages.filter (fun msg => msg.role != "system")
  chat_messages ++ py_take_last 4 user_assistant_messages

/-- Total content length of a message list. -/
def total_content_length (l : List ChatMessage) : Nat :=
  (l.map (fun m => m.content.length)).sum

/-- The trimming loop of `ai_services.get_chat_completion`, walking the
reversed message list and accumulating content length; it stops (Python
`break`) at the first message that would push the total over 6000. -/
def build_optimized : List ChatMessage → Nat → List ChatMessage
  | [], _ => []
  | msg :: rest, total =>
    if total + msg.content.length > 6000 then []
    else msg :: build_optimized rest (total + msg.content.length)

/-- The `optimized_messages` list that `ai_services.get_chat_completion`
actually sends: the loop above over `reversed(messages)`, inserting at the
front (hence the final `reverse`). -/
def optimized_messages (messages : List ChatMessage) : List ChatMessage :=
  (build_optimized messages.reverse 0).reverse

/-- A formatted source dict `{"source": ..., "text": ..., "score": ...}` as
built by `ai_services.format_sources`. -/
structure RetrievedSource where
  source : String
  text : String
  score : Float
deriving Repr

/-- Metadata of one Pinecone match, with the two fields the code reads
(`metadata.get("source", ...)`, `metadata.get("text", ...)`); `none` models an
absent key. -/
structure MatchMetadata where
  source : Option String
  text : Option String
deriving Repr

/-- One match of a Pinecone query result. -/
structure QueryMatch where
  metadata : MatchMetadata
  score : Float
deriving Repr

/-- A Pinecone query result (`results.matches`). -/
structure QueryResults where
  «matches» : List QueryMatch
deriving Repr

/-- `ai_services.format_sources`: one source object per match, in match order,
with dict-get defaults. -/
def format_sources (results : QueryResults) : List RetrievedSource :=
  results.«matches».map (fun m =>
    { source := m.metadata.source.getD "Unknown source"
      text := m.metadata.text.getD "No text available"
      score := m.score })

/-- The per-source truncation inside `ai_services.create_system_prompt`:
`doc['text'][:800] + "..." if len(doc['text']) > 800 else doc['text']`. -/
def truncate_source_text (t : String) : String :=
  if t.length > 800 then String.mk (t.data.take 800) ++ "..." else t

/-- One labelled context block of the system prompt (the f-string inside the
loop of `create_system_prompt`, with `i` the 0-based enumeration index). -/
def source_line (i : Nat) (doc : RetrievedSource) : String :=
  "\nSource " ++ Nat.repr (i + 1) ++ " [" ++ doc.source ++ "]: "
    ++ truncate_source_text doc.text ++ "\n"

/-- The `context` accumulation loop of `create_system_prompt`
(`for i, doc in enumerate(limited_docs): context += ...`). -/
def build_context (i : Nat) : List RetrievedSource → String
  | [] => ""
  | doc :: rest => source_line i doc ++ build_context (i + 1) rest

/-- `ai_services.create_system_prompt`: top 3 sources, each truncated, wrapped
in the fixed instruction template. -/
def create_system_prompt (context_docs : List RetrievedSource) : String :=
  let limited_docs := context_docs.take 3
  let context := build_context 0 limited_docs
  "You are LawChat, a legal research assistant for Ethiopian law.\n\nContext Documents:\n"
    ++ context
    ++ "\n\nInstructions:\n- Answer based on the provided context\n- Cite sources as [Source X]\n- Be concise and direct\n- If information is not in context, state clearly\n"

/-! ### Chunker (`process_pdfs_to_pinecone.chunk_text`) -/

def CHUNK_SIZE : Nat := 1000
def CHUNK_OVERLAP : Nat := 200

/-- Metadata of one chunk. -/
structure ChunkMetadata where
  source : String
  chunk_index : Nat
  char_start : Nat
  char_end : Nat
deriving DecidableEq, Repr

/-- One chunk (`chunk_data` in the source). -/
structure Chunk where
  text : String
  metadata : ChunkMetadata
deriving DecidableEq, Repr

/-- `process_pdfs_to_pinecone.chunk_text`: slide a `CHUNK_SIZE` window forward
by `CHUNK_SIZE - CHUNK_OVERLAP`, skipping windows shorter than 50; the
`chunk_index` of an emitted chunk is the number of chunks emitted before it. -/
def chunk_text (text : String) (filename : String) : List Chunk :=
  (py_range 0 text.length (CHUNK_SIZE - CHUNK_OVERLAP)).foldl
    (fun chunks i =>
      let ct := (text.data.drop i).take CHUNK_SIZE
      if ct.length < 50 then chunks
      else chunks ++ [{ text := String.mk ct
                        metadata := { source := filename
                                      chunk_index := chunks.length
                                      char_start := i
                                      char_end := i + ct.length } }])
    []

/-- The chunk emitted for window offset `i` with emission index `idx`
(auxiliary, used to state properties of `chunk_text`). -/
def chunkAt (text : String) (filename : String) (i idx : Nat) : Chunk :=
  let ct := (text.data.drop i).take CHUNK_SIZE
  { text := String.mk ct
    metadata := { source := filename, chunk_index := idx, char_start := i
                  char_end := i + ct.length } }

/-- Accumulator-free form of the chunking loop over a list of window offsets
(auxiliary). -/
def emitFrom (text : String) (filename : String) : List Nat → Nat → List Chunk
  | [], _ => []
  | i :: is, idx =>
    if ((text.data.drop i).take CHUNK_SIZE).length < 50 then
      emitFrom text filename is idx
    else
      chunkAt text filename i idx :: emitFrom text filename is (idx + 1)

/-! ### Ingestion run (`process_pdfs_to_pinecone.main`) -/

def BATCH_SIZE : Nat := 50

/-- One PDF file of the docs directory, as the run sees it: basename, stat
data, and the text `extract_text_from_pdf` yields for it (`""` models a failed
or empty extraction). -/
structure SourceFile where
  filename : String
  size : Nat
  mtime : Nat
  text : String
deriving DecidableEq, Repr

/-- A `ProcessedFileRecord` as stored in `processed_files.json`. -/
structure FileRecord where
  size : Nat
  mtime : Nat
  chunks : Nat
deriving DecidableEq, Repr

/-- Dict key lookup (`d[k]` / `k in d`) on an insertion-ordered dict. -/
def py_dict_find {β : Type} (t : List (String × β)) (k : String) : Option β :=
  match t with
  | [] => none
  | (k', v) :: rest => if k' = k then some v else py_dict_find rest k

/-- Dict assignment `d[k] = v`: overwrite in place if present, else append. -/
def py_dict_assign {β : Type} (t : List (String × β)) (k : String) (v : β) :
    List (String × β) :=
  match t with
  | [] => [(k, v)]
  | (k', v') :: rest =>
    if k' = k then (k, v) :: rest else (k', v') :: py_dict_assign rest k v

/-- Python `d.update(new)`: assign every entry of `new` in order. -/
def py_dict_update {β : Type} (t new : List (String × β)) : List (String × β) :=
  new.foldl (fun acc p => py_dict_assign acc p.1 p.2) t

/-- Python `del d[k]`. -/
def py_dict_del {β : Type} (t : List (String × β)) (k : String) : List (String × β) :=
  t.filter (fun p => p.1 != k)

/-- The tracking dict, filename-keyed, insertion ordered. -/
abbrev Tracking := List (String × FileRecord)

/-- `process_pdfs_to_pinecone.file_has_changed`: false exactly when a record
for the basename exists with identical size and mtime. -/
def file_has_changed (f : SourceFile) (processed_files : Tracking) : Bool :=
  match py_dict_find processed_files f.filename with
  | some record => if f.size = record.size ∧ f.mtime = record.mtime then false else true
  | none => true

/-- The skip condition of the main loop:
`filename in processed_files and not file_has_changed(...)`. -/
def skip_file (f : SourceFile) (processed_files : Tracking) : Bool :=
  (py_dict_find processed_files f.filename).isSome && !(file_has_changed f processed_files)

/-- The `files_to_process` partition of the main loop. -/
def files_to_process (files : List SourceFile) (processed_files : Tracking) : List SourceFile :=
  files.filter (fun f => !(skip_file f processed_files))

/-- The chunks accumulated in step 1 (`all_chunks`): files with empty
extracted text contribute nothing and get no record. -/
def run_all_chunks (ftp : List SourceFile) : List Chunk :=
  (ftp.map (fun f => if f.text ≠ "" then chunk_text f.text f.filename else [])).flatten

/-- The `processed_file_data` dict accumulated in step 1. -/
def run_records (ftp : List SourceFile) : Tracking :=
  ftp.filterMap (fun f =>
    if f.text ≠ "" then
      some (f.filename, ⟨f.size, f.mtime, (chunk_text f.text f.filename).length⟩)
    else none)

/-- `process_pdfs_to_pinecone.prepare_batches`: yield `items[i:i+batch_size]`
for `i in range(0, len(items), batch_size)`. -/
def prepare_batches (items : List Chunk) (batch_size : Nat) : List (List Chunk) :=
  (py_range 0 items.length batch_size).map (fun i => (items.drop i).take batch_size)

/-- Result of one ingestion run: the tracking dict persisted at the end, the
number of files put up for processing, and the number of vectors upserted. -/
structure RunResult where
  tracking : Tracking
  files_processed : Nat
  total_upserted : Nat
deriving Repr

/-- `process_pdfs_to_pinecone.main`, with remote effects made explicit:
`fail b = true` means the embedding/upsert of batch `b` raises (the except
branch).  A failed batch contributes nothing to `total_upserted`; the run goes
on with the remaining batches, and the tracking update at the end is
unconditional. -/
def ingest_run (files : List SourceFile) (processed_files : Tracking)
    (fail : Nat → Bool) : RunResult :=
  let ftp := files_to_process files processed_files
  if ftp.isEmpty then
    { tracking := processed_files, files_processed := 0, total_upserted := 0 }
  else
    let all_chunks := run_all_chunks ftp
    let processed_file_data := run_records ftp
    if all_chunks.isEmpty then
      { tracking := processed_files, files_processed := ftp.length, total_upserted := 0 }
    else
      let batches := prepare_batches all_chunks BATCH_SIZE
      let total_upserted :=
        (batches.enum.filter (fun p => !(fail p.1))).foldl (fun acc p => acc + p.2.length) 0
      { tracking := py_dict_update processed_files processed_file_data
        files_processed := ftp.length
        total_upserted := total_upserted }

/-! ### Per-session query flow (`main.process_user_query`, `main.handle_query_input`,
`session_manager`) -/

def CHAT_HISTORY_LIMIT : Nat := 10

/-- One `query_cache` value: `{'response', 'sources', 'timestamp'}`. -/
structure CacheEntry where
  response : String
  sources : List RetrievedSource
  timestamp : Nat
deriving Repr

/-- The per-session `st.session_state.query_cache`. -/
abbrev QueryCache := List (String × CacheEntry)

/-- One search-history entry of `session_manager.add_to_search_history`. -/
structure SearchEntry where
  query : String
  timestamp : String
  preview : String
deriving DecidableEq, Repr

/-- `session_manager.add_to_search_history`: append if the query is non-empty
and new, then keep only the last `CHAT_HISTORY_LIMIT` entries. -/
def add_to_search_history (now_str : String) (query response_preview : String)
    (search_history : List SearchEntry) : List SearchEntry :=
  if query != "" && !(search_history.map (fun h => h.query)).contains query then
    let appended := search_history ++
      [{ query := query
         timestamp := now_str
         preview := if response_preview.length > 100 then
             String.mk (response_preview.data.take 100) ++ "..."
           else response_preview }]
    if appended.length > CHAT_HISTORY_LIMIT then py_take_last CHAT_HISTORY_LIMIT appended
    else appended
  else search_history

/-- The session state touched by a query turn. -/
structure AppState where
  messages : List ChatMessage
  last_sources : List RetrievedSource
  search_history : List SearchEntry
  chat_count : Nat
  query_cache : QueryCache

/-- The remote world during one turn: the Pinecone search outcome, the chat
completion outcome (`none` models a raised exception), and the clock. -/
structure Env where
  results : Option QueryResults
  completion : Option String
  now : Nat
  now_str : String

/-- Which control-flow branch of `process_user_query` a turn took, carrying
the message list sent to the completion service where one was sent. -/
inductive TurnOutcome where
  | invalid : TurnOutcome
  | cacheHit (response : String) : TurnOutcome
  | searchFailed : TurnOutcome
  | completionFailed (sent : List ChatMessage) : TurnOutcome
  | success (sent : List ChatMessage) (response : String) : TurnOutcome
deriving DecidableEq

/-- `min(cache.keys(), key=lambda k: cache[k]['timestamp'])`: the first key
holding the minimal timestamp. -/
def py_min_by_timestamp (c : QueryCache) : Option String :=
  match c with
  | [] => none
  | x :: xs =>
    some ((xs.foldl (fun m y => if y.2.timestamp < m.2.timestamp then y else m) x).1)

/-- The cache-cleanup block of `process_user_query` (lines 153-156): delete the
entry with the oldest timestamp. -/
def evict_oldest (c : QueryCache) : QueryCache :=
  match py_min_by_timestamp c with
  | some oldest_key => py_dict_del c oldest_key
  | none => c

/-- `main.process_user_query` with remote effects explicit.  Mirrors the
source: validation, cache lookup keyed by `user_input.lower().strip()` with a
300-second freshness window, then search → last-sources update → prompt and
message assembly → completion → history/search-history/cache updates and
cache cleanup; exceptions from either remote call land in the except branch,
which changes no further state. -/
def process_user_query (user_input : String) (env : Env) (st : AppState) :
    AppState × TurnOutcome :=
  if !(validate_query user_input) then (st, .invalid)
  else
    let cache_key := py_strip (py_lower user_input)
    let fresh : Option CacheEntry :=
      match py_dict_find st.query_cache cache_key with
      | some cached_response =>
        if env.now - cached_response.timestamp < 300 then some cached_response else none
      | none => none
    match fresh with
    | some cached_response =>
      ({ st with
          messages := st.messages ++ [⟨"assistant", cached_response.response⟩]
          last_sources := cached_response.sources },
       .cacheHit cached_response.response)
    | none =>
      match env.results with
      | none => (st, .searchFailed)
      | some results =>
        let sources := format_sources results
        let st1 := { st with last_sources := sources }
        let system_prompt := create_system_prompt sources
        let chat_messages := prepare_chat_messages st1.messages system_prompt
        match env.completion with
        | none => (st1, .completionFailed chat_messages)
        | some response =>
          let st2 := { st1 with
            messages := st1.messages ++ [(⟨"assistant", response⟩ : ChatMessage)] }
          let st3 := { st2 with
            search_history := add_to_search_history env.now_str user_input response
              st2.search_history }
          let st4 := { st3 with
            query_cache := py_dict_assign st3.query_cache cache_key
              { response := response, sources := sources, timestamp := env.now } }
          let st5 :=
            if st4.query_cache.length > 10 then
              { st4 with query_cache := evict_oldest st4.query_cache }
            else st4
          (st5, .success chat_messages response)

/-- The direct-chat-input branch of `main.handle_query_input`: the user
message is appended and the chat counter bumped before `process_user_query`
runs. -/
def handle_query_input (user_input : String) (env : Env) (st : AppState) :
    AppState × TurnOutcome :=
  let st' := { st with
    messages := st.messages ++ [⟨"user", user_input⟩]
    chat_count := st.chat_count + 1 }
  process_user_query user_input env st'

/-- The message list a turn sent to the completion service, if it sent one. -/
def TurnOutcome.sent_messages : TurnOutcome → Option (List ChatMessage)
  | .completionFailed sent => some sent
  | .success sent _ => some sent
  | _ => none

/-- The cache-reuse condition of `process_user_query`: a cache entry exists
under the normalized key (`user_input.lower().strip()`) and is younger than
300 seconds. -/
def fresh_cache_hit (user_input : String) (cache : QueryCache) (now : Nat) : Bool :=
  match py_dict_find cache (py_strip (py_lower user_input)) with
  | some cached_response => decide (now - cached_response.timestamp < 300)
  | none => false

/-! ### Concrete example inputs used by counterexamples and witnesses -/

/-- A 501-character query, longer than the documented 500-character maximum. -/
def long_query : String := String.mk (List.replicate 501 'a')

/-- A user message whose content alone exceeds the 6000-character budget. -/
def big_user_message : ChatMessage := ⟨"user", String.mk (List.replicate 6001 'a')⟩

/-- A message list led by a system message and followed by an oversized user
message. -/
def budget_example_messages : List ChatMessage :=
  [⟨"system", "You are LawChat."⟩, big_user_message]

/-- A one-match Pinecone result. -/
def example_results : QueryResults :=
  ⟨[⟨⟨some "constitution.pdf", some "Article 1: full text"⟩, 0.9⟩]⟩

/-- The initial session state of `session_manager.initialize_session_state`. -/
def init_state : AppState :=
  { messages := [⟨"system", "You are a helpful legal research assistant."⟩]
    last_sources := []
    search_history := []
    chat_count := 0
    query_cache := [] }

/-- An environment in which both remote calls raise. -/
def failing_env : Env :=
  { results := none, completion := none, now := 1000, now_str := "12:00" }

/-- An environment in which both remote calls succeed. -/
def ok_env : Env :=
  { results := some example_results, completion := some "Answer [Source 1]"
    now := 1000, now_str := "12:00" }

/-- A 900-character document text, yielding two chunks. -/
def chunk_example_text : String := String.mk (List.replicate 900 'x')

/-- A one-file docs directory whose PDF extracts to 60 characters of text. -/
def ingestion_example_files : List SourceFile :=
  [{ filename := "a.pdf", size := 4321, mtime := 99
     text := String.mk (List.replicate 60 'y') }]

/-- A session state holding one fresh cached entry for "what is law?". -/
def cached_state : AppState :=
  { init_state with
    query_cache := [("what is law?",
      { response := "Cached answer", sources := [], timestamp := 900 })] }

end LawChat

namespace LawChat

/-! ## Theorems -/

set_option maxRecDepth 40000 in
/-- C1 counterexample: the claim says a query whose trimmed length exceeds 500
is rejected, but this 501-character query passes validation. -/
theorem validate_query_accepts_overlong :
    500 < (py_strip long_query).length ∧ validate_query long_query = true := by
  constructor <;> decide

/-- C1 (amended): validation fails exactly when the stripped query is shorter
than 3 characters; there is no maximum-length check, so only the lower
boundary behaves as documented ("ab" rejected, "abc" accepted). -/
theorem validate_query_min_length_only :
    (∀ q : String, validate_query q = false ↔ (py_strip q).length < 3)
    ∧ validate_query "ab" = false ∧ validate_query "abc" = true := by
  refine ⟨fun q => ?_, by decide, by decide⟩
  unfold validate_query
  by_cases h : q = ""
  · subst h
    simp [py_strip]
  · have hq : (q == "") = false := by simp [h]
    simp only [hq, Bool.false_or]
    by_cases h3 : (py_strip q).length < 3
    · simp [h3]
    · simp [h3]

/-- C2: the assembled message list starts with the one manufactured system
message, contains exactly one system-role entry, and its remaining entries are
precisely the most recent (at most 4) non-system entries of the input history,
in order: the history is filtered of system entries first and then sliced. -/
theorem prepare_chat_messages_spec (user_messages : List ChatMessage) (system_prompt : String) :
    (prepare_chat_messages user_messages system_prompt).head? =
      some ⟨"system", system_prompt⟩
    ∧ (prepare_chat_messages user_messages system_prompt).countP
        (fun m => m.role == "system") = 1
    ∧ (prepare_chat_messages user_messages system_prompt).tail
        = py_take_last 4 (user_messages.filter (fun m => m.role != "system"))
    ∧ (prepare_chat_messages user_messages system_prompt).tail.length ≤ 4
    ∧ (prepare_chat_messages user_messages system_prompt).tail
        <:+ user_messages.filter (fun m => m.role != "system") := by
  unfold prepare_chat_messages
  refine ⟨rfl, ?_, rfl, ?_, ?_⟩
  · simp only [List.singleton_append, List.countP_cons]
    have hz : (py_take_last 4 (user_messages.filter (fun m => m.role != "system"))).countP
        (fun m => m.role == "system") = 0 := by
      apply List.countP_eq_zero.mpr
      intro m hm
      have hmem : m ∈ user_messages.filter (fun m => m.role != "system") :=
        List.mem_of_mem_drop hm
      have := (List.mem_filter.mp hmem).2
      simpa using this
    simp [hz]
  · simp only [List.singleton_append, List.tail_cons, py_take_last, List.length_drop]
    omega
  · simp only [List.singleton_append, List.tail_cons, py_take_last]
    exact List.drop_suffix _ _

lemma total_content_length_nil : total_content_length [] = 0 := rfl

lemma total_content_length_cons (m : ChatMessage) (l : List ChatMessage) :
    total_content_length (m :: l) = m.content.length + total_content_length l := by
  simp [total_content_length]

lemma total_content_length_reverse (l : List ChatMessage) :
    total_content_length l.reverse = total_content_length l := by
  simp [total_content_length, List.map_reverse, List.sum_reverse]

lemma build_optimized_isPrefix (l : List ChatMessage) (t : Nat) :
    build_optimized l t <+: l := by
  induction l generalizing t with
  | nil => simp [build_optimized]
  | cons m rest ih =>
    unfold build_optimized
    by_cases h : t + m.content.length > 6000
    · simp [h]
    · simpa [h, List.cons_prefix_cons] using ih (t + m.content.length)

lemma build_optimized_within (l : List ChatMessage) (t : Nat) (ht : t ≤ 6000) :
    t + total_content_length (build_optimized l t) ≤ 6000 := by
  induction l generalizing t with
  | nil => simpa [build_optimized, total_content_length_nil]
  | cons m rest ih =>
    unfold build_optimized
    by_cases h : t + m.content.length > 6000
    · simpa [h, total_content_length_nil]
    · have := ih (t + m.content.length) (by omega)
      simp only [h, if_false, total_content_length_cons]
      omega

lemma build_optimized_maximal (l : List ChatMessage) (t : Nat) (p : List ChatMessage)
    (hp : p <+: l) (hle : t + total_content_length p ≤ 6000) :
    p.length ≤ (build_optimized l t).length := by
  induction l generalizing t p with
  | nil =>
    have : p = [] := List.prefix_nil.mp hp
    simp [this]
  | cons m rest ih =>
    cases p with
    | nil => simp
    | cons x p' =>
      obtain ⟨hx, hp'⟩ := List.cons_prefix_cons.mp hp
      subst hx
      have hfit : ¬(t + x.content.length > 6000) := by
        have := total_content_length_cons x p' ▸ hle
        omega
      unfold build_optimized
      simp only [hfit, if_false, List.length_cons, Nat.add_le_add_iff_right]
      exact ih (t + x.content.length) p' hp'
        (by have := total_content_length_cons x p' ▸ hle; omega)

/-- C5 counterexample: the claim says the trimmed list always retains the
mandatory leading system message, but when the most recent message alone
overflows the 6000-character budget the walk breaks immediately and the sent
list is empty — the leading system message of the input is dropped. -/
theorem optimized_messages_drops_system :
    budget_example_messages.head? = some ⟨"system", "You are LawChat."⟩
    ∧ 6000 < total_content_length budget_example_messages
    ∧ optimized_messages budget_example_messages = [] := by
  have hbig : big_user_message.content.length = 6001 := by
    show (List.replicate 6001 'a').length = 6001
    rw [List.length_replicate]
  refine ⟨rfl, ?_, ?_⟩
  · show 6000 < total_content_length [⟨"system", "You are LawChat."⟩, big_user_message]
    rw [total_content_length_cons, total_content_length_cons, total_content_length_nil, hbig]
    have h16 : ("You are LawChat." : String).length = 16 := rfl
    rw [h16]
    omega
  · show (build_optimized budget_example_messages.reverse 0).reverse = []
    have hrev : budget_example_messages.reverse
        = [big_user_message, ⟨"system", "You are LawChat."⟩] := rfl
    rw [hrev]
    simp [build_optimized, hbig]

/-- C5 (amended): the trimming keeps exactly the longest suffix of the message
list (most-recent messages) whose accumulated content length stays within the
6000-character budget, walking from most recent to least recent and stopping
at the first overflow; the leading system message is kept only when it fits,
and can be dropped. -/
theorem optimized_messages_spec (messages : List ChatMessage) :
    optimized_messages messages <:+ messages
    ∧ total_content_length (optimized_messages messages) ≤ 6000
    ∧ ∀ s : List ChatMessage, s <:+ messages → total_content_length s ≤ 6000 →
        s.length ≤ (optimized_messages messages).length := by
  refine ⟨?_, ?_, ?_⟩
  · have h := build_optimized_isPrefix messages.reverse 0
    have := List.reverse_suffix.mpr h
    simpa [optimized_messages] using this
  · have h := build_optimized_within messages.reverse 0 (by omega)
    simpa [optimized_messages, total_content_length_reverse] using h
  · intro s hs hle
    have hp : s.reverse <+: messages.reverse := List.reverse_prefix.mpr hs
    have := build_optimized_maximal messages.reverse 0 s.reverse hp
      (by simpa [total_content_length_reverse] using hle)
    simpa [optimized_messages] using this

/-- C7: the system prompt depends only on the first 3 (highest-ranked)
sources, and each included source text is truncated to 800 characters with
the ellipsis appended exactly on the truncation path, so no included text
exceeds 800 plus the ellipsis length. -/
theorem create_system_prompt_truncation (context_docs : List RetrievedSource) :
    create_system_prompt context_docs = create_system_prompt (context_docs.take 3)
    ∧ ∀ d ∈ context_docs,
        (truncate_source_text d.text).length ≤ 800 + ("..." : String).length
        ∧ (d.text.length ≤ 800 → truncate_source_text d.text = d.text)
        ∧ (800 < d.text.length →
            truncate_source_text d.text = String.mk (d.text.data.take 800) ++ "..."
            ∧ (truncate_source_text d.text).length = 803) := by
  have h3 : ("..." : String).length = 3 := rfl
  constructor
  · simp [create_system_prompt, List.take_take]
  · intro d _
    have hmk : ∀ l : List Char, (String.mk l).length = l.length := fun _ => rfl
    have hdata : d.text.length = d.text.data.length := rfl
    by_cases h : d.text.length > 800
    · have htr : truncate_source_text d.text = String.mk (d.text.data.take 800) ++ "..." := by
        simp [truncate_source_text, h]
      have hlen : (truncate_source_text d.text).length = 803 := by
        rw [htr, String.length_append, hmk, List.length_take, h3]
        omega
      exact ⟨by omega, fun hle => by omega, fun _ => ⟨htr, hlen⟩⟩
    · have htr : truncate_source_text d.text = d.text := by
        simp [truncate_source_text, h]
      rw [h3, htr]
      exact ⟨by omega, fun _ => rfl, fun hgt => by omega⟩

/-- C7 witness: a short text passes through untouched and satisfies the
bound. -/
theorem create_system_prompt_truncation_witness :
    (truncate_source_text "Article 1").length ≤ 800 + ("..." : String).length
    ∧ truncate_source_text "Article 1" = "Article 1" := by
  have h := (create_system_prompt_truncation
    [{ source := "constitution.pdf", text := "Article 1", score := 0.9 }]).2
    { source := "constitution.pdf", text := "Article 1", score := 0.9 }
    (List.mem_singleton.mpr rfl)
  exact ⟨h.1, h.2.1 (by decide)⟩

lemma build_context_extract (l : List RetrievedSource) :
    ∀ (i k : Nat) (d : RetrievedSource), l[k]? = some d →
    ∃ pre post : String, build_context i l = pre ++ source_line (i + k) d ++ post := by
  induction l with
  | nil => intro i k d h; simp at h
  | cons hd tl ih =>
    intro i k d h
    cases k with
    | zero =>
      have hd_eq : hd = d := by simpa using h
      subst hd_eq
      refine ⟨"", build_context (i + 1) tl, ?_⟩
      show build_context i (hd :: tl) = "" ++ source_line (i + 0) hd ++ build_context (i + 1) tl
      have he : ∀ s : String, "" ++ s = s := fun s => by
        apply String.ext
        simp [String.data_append]
      rw [he]
      simp [build_context]
    | succ k' =>
      have h' : tl[k']? = some d := by simpa using h
      obtain ⟨pre, post, hpp⟩ := ih (i + 1) k' d h'
      refine ⟨source_line i hd ++ pre, post, ?_⟩
      have harith : i + 1 + k' = i + (k' + 1) := by omega
      rw [harith] at hpp
      show source_line i hd ++ build_context (i + 1) tl
          = source_line i hd ++ pre ++ source_line (i + (k' + 1)) d ++ post
      rw [hpp]
      simp only [String.append_assoc]

/-- C8: the formatted source list is one-to-one with the backend matches in
order (same index, same score, dict-get defaults applied); in the system
prompt the block labelled `Source N` is built from entry `N-1` of the sources
list; and on a fresh turn whose search succeeds, the list stored for display
(`last_sources`) and the list whose prompt is sent to the completion service
are both exactly `format_sources results` of the same call. -/
theorem format_sources_positional (results : QueryResults) :
    (format_sources results).length = results.«matches».length
    ∧ (∀ k : Nat, (format_sources results)[k]? = (results.«matches»[k]?).map
        (fun m => { source := m.metadata.source.getD "Unknown source"
                    text := m.metadata.text.getD "No text available"
                    score := m.score }))
    ∧ (∀ (sources : List RetrievedSource) (k : Nat) (src : RetrievedSource),
        sources[k]? = some src → k < 3 →
        ∃ pre post : String,
          create_system_prompt sources = pre ++ source_line k src ++ post)
    ∧ ∀ (user_input : String) (env : Env) (st : AppState),
        validate_query user_input = true →
        fresh_cache_hit user_input st.query_cache env.now = false →
        env.results = some results →
        (process_user_query user_input env st).1.last_sources = format_sources results
        ∧ (process_user_query user_input env st).2.sent_messages
            = some (prepare_chat_messages st.messages
                (create_system_prompt (format_sources results))) := by
  refine ⟨by simp [format_sources], by simp [format_sources], ?_, ?_⟩
  · intro sources k src h hk
    have h3 : (sources.take 3)[k]? = some src := by
      rw [List.getElem?_take_of_lt hk]
      exact h
    obtain ⟨pre, post, hb⟩ := build_context_extract (sources.take 3) 0 k src h3
    rw [Nat.zero_add] at hb
    refine ⟨"You are LawChat, a legal research assistant for Ethiopian law.\n\nContext Documents:\n"
      ++ pre,
      post ++ "\n\nInstructions:\n- Answer based on the provided context\n- Cite sources as [Source X]\n- Be concise and direct\n- If information is not in context, state clearly\n",
      ?_⟩
    show "You are LawChat, a legal research assistant for Ethiopian law.\n\nContext Documents:\n"
        ++ build_context 0 (sources.take 3)
        ++ "\n\nInstructions:\n- Answer based on the provided context\n- Cite sources as [Source X]\n- Be concise and direct\n- If information is not in context, state clearly\n"
        = _
    rw [hb]
    simp [String.append_assoc]
  · intro user_input env st hv hfresh hres
    unfold process_user_query
    rw [hv]
    simp only [Bool.not_true, Bool.false_eq_true, if_false]
    unfold fresh_cache_hit at hfresh
    rw [hres]
    cases hfind : py_dict_find st.query_cache (py_strip (py_lower user_input)) with
    | none =>
      cases env.completion <;> simp [TurnOutcome.sent_messages] <;> split <;> rfl
    | some e =>
      try rw [hfind] at hfresh
      have hstale : ¬(env.now - e.timestamp < 300) := by
        simpa using hfresh
      cases env.completion <;> simp [hstale, TurnOutcome.sent_messages] <;> split <;> rfl

/-- C8 witness: a concrete one-match query, processed from the initial
session state, stores exactly the formatted source list and labels its first
entry `Source 1`. -/
theorem format_sources_positional_witness :
    (process_user_query "What is law?" ok_env init_state).1.last_sources
        = format_sources example_results
    ∧ ∃ pre post : String,
        create_system_prompt (format_sources example_results)
          = pre ++ source_line 0 ⟨"constitution.pdf", "Article 1: full text", 0.9⟩ ++ post := by
  obtain ⟨-, -, h3, h4⟩ := format_sources_positional example_results
  refine ⟨(h4 "What is law?" ok_env init_state (by decide) rfl rfl).1, ?_⟩
  exact h3 (format_sources example_results) 0
    ⟨"constitution.pdf", "Article 1: full text", 0.9⟩ rfl (by omega)

lemma window_length (text : String) (i : Nat) :
    ((text.data.drop i).take CHUNK_SIZE).length = min CHUNK_SIZE (text.data.length - i) := by
  simp [List.length_take, List.length_drop]

lemma chunk_text_foldl (text filename : String) (is : List Nat) (acc : List Chunk) :
    is.foldl (fun chunks i =>
      let ct := (text.data.drop i).take CHUNK_SIZE
      if ct.length < 50 then chunks
      else chunks ++ [{ text := String.mk ct
                        metadata := { source := filename
                                      chunk_index := chunks.length
                                      char_start := i
                                      char_end := i + ct.length } }]) acc
    = acc ++ emitFrom text filename is acc.length := by
  induction is generalizing acc with
  | nil => simp [emitFrom]
  | cons i rest ih =>
    simp only [List.foldl_cons]
    by_cases h : ((text.data.drop i).take CHUNK_SIZE).length < 50
    · simp only [h, if_true, emitFrom]
      exact ih acc
    · simp only [h, if_false, emitFrom]
      rw [ih]
      simp [chunkAt, List.append_assoc]

lemma chunk_text_eq_emitFrom (text filename : String) :
    chunk_text text filename
      = emitFrom text filename (py_range 0 text.length (CHUNK_SIZE - CHUNK_OVERLAP)) 0 := by
  unfold chunk_text
  rw [chunk_text_foldl]
  simp

lemma emitFrom_eq_nil (text filename : String) (is : List Nat) (idx : Nat)
    (h : ∀ i ∈ is, text.data.length < i + 50) :
    emitFrom text filename is idx = [] := by
  induction is generalizing idx with
  | nil => rfl
  | cons i rest ih =>
    have hi : text.data.length < i + 50 := h i (by simp)
    have hw : ((text.data.drop i).take CHUNK_SIZE).length < 50 := by
      rw [window_length]
      have : CHUNK_SIZE = 1000 := rfl
      omega
    simp only [emitFrom, hw, if_true]
    exact ih idx (fun i hmem => h i (List.mem_cons_of_mem _ hmem))

lemma emitFrom_arith_spec (text filename : String) :
    ∀ (m a idx : Nat),
      (∀ j, j < (emitFrom text filename
            ((List.range m).map (fun k => a + (CHUNK_SIZE - CHUNK_OVERLAP) * k)) idx).length →
          (emitFrom text filename
              ((List.range m).map (fun k => a + (CHUNK_SIZE - CHUNK_OVERLAP) * k)) idx)[j]?
            = some (chunkAt text filename (a + (CHUNK_SIZE - CHUNK_OVERLAP) * j) (idx + j))
          ∧ 50 ≤ ((text.data.drop (a + (CHUNK_SIZE - CHUNK_OVERLAP) * j)).take CHUNK_SIZE).length)
      ∧ (∀ j, j < m → a + (CHUNK_SIZE - CHUNK_OVERLAP) * j + 50 ≤ text.data.length →
          j < (emitFrom text filename
            ((List.range m).map (fun k => a + (CHUNK_SIZE - CHUNK_OVERLAP) * k)) idx).length) := by
  intro m
  induction m with
  | zero =>
    intro a idx
    constructor
    · intro j hj
      simp [emitFrom] at hj
    · intro j hj
      omega
  | succ m ih =>
    intro a idx
    have hstep : CHUNK_SIZE - CHUNK_OVERLAP = 800 := rfl
    have hcs : CHUNK_SIZE = 1000 := rfl
    have hrange : (List.range (m + 1)).map (fun k => a + (CHUNK_SIZE - CHUNK_OVERLAP) * k)
        = (a + (CHUNK_SIZE - CHUNK_OVERLAP) * 0)
          :: (List.range m).map
              (fun k => (a + (CHUNK_SIZE - CHUNK_OVERLAP)) + (CHUNK_SIZE - CHUNK_OVERLAP) * k) := by
      rw [List.range_succ_eq_map, List.map_cons, List.map_map]
      congr 1
      apply List.map_congr_left
      intro x _
      simp only [Function.comp_apply, Nat.succ_eq_add_one]
      ring
    rw [hrange]
    by_cases hw : ((text.data.drop (a + (CHUNK_SIZE - CHUNK_OVERLAP) * 0)).take CHUNK_SIZE).length < 50
    · have hshort : text.data.length < a + 50 := by
        rw [window_length] at hw
        omega
      have hnil : emitFrom text filename
          ((a + (CHUNK_SIZE - CHUNK_OVERLAP) * 0)
            :: (List.range m).map
                (fun k => (a + (CHUNK_SIZE - CHUNK_OVERLAP)) + (CHUNK_SIZE - CHUNK_OVERLAP) * k))
          idx = [] := by
        apply emitFrom_eq_nil
        intro i hi
        rcases List.mem_cons.mp hi with h0 | hrest
        · omega
        · obtain ⟨k, -, rfl⟩ := List.mem_map.mp hrest
          omega
      constructor
      · intro j hj
        rw [hnil] at hj
        simp at hj
      · intro j hjm hfit
        omega
    · have hunfold : emitFrom text filename
          ((a + (CHUNK_SIZE - CHUNK_OVERLAP) * 0)
            :: (List.range m).map
                (fun k => (a + (CHUNK_SIZE - CHUNK_OVERLAP)) + (CHUNK_SIZE - CHUNK_OVERLAP) * k))
          idx
          = chunkAt text filename (a + (CHUNK_SIZE - CHUNK_OVERLAP) * 0) idx
            :: emitFrom text filename
                ((List.range m).map
                  (fun k => (a + (CHUNK_SIZE - CHUNK_OVERLAP)) + (CHUNK_SIZE - CHUNK_OVERLAP) * k))
                (idx + 1) := by
        simp only [emitFrom]
        rw [if_neg hw]
      rw [hunfold]
      obtain ⟨ihget, ihlen⟩ := ih (a + (CHUNK_SIZE - CHUNK_OVERLAP)) (idx + 1)
      constructor
      · intro j hj
        cases j with
        | zero =>
          refine ⟨?_, by omega⟩
          simp
        | succ j =>
          have hj' : j < (emitFrom text filename
              ((List.range m).map
                (fun k => (a + (CHUNK_SIZE - CHUNK_OVERLAP)) + (CHUNK_SIZE - CHUNK_OVERLAP) * k))
              (idx + 1)).length := by
            simpa using hj
          obtain ⟨hget, hbound⟩ := ihget j hj'
          have ha : (a + (CHUNK_SIZE - CHUNK_OVERLAP)) + (CHUNK_SIZE - CHUNK_OVERLAP) * j
              = a + (CHUNK_SIZE - CHUNK_OVERLAP) * (j + 1) := by ring
          have hidx : (idx + 1) + j = idx + (j + 1) := by omega
          rw [ha] at hget hbound
          rw [hidx] at hget
          constructor
          · rw [List.getElem?_cons_succ]
            exact hget
          · exact hbound
      · intro j hjm hfit
        cases j with
        | zero => simp
        | succ j =>
          have ha : (a + (CHUNK_SIZE - CHUNK_OVERLAP)) + (CHUNK_SIZE - CHUNK_OVERLAP) * j
              = a + (CHUNK_SIZE - CHUNK_OVERLAP) * (j + 1) := by ring
          have hlen := ihlen j (by omega) (by omega)
          simpa using Nat.succ_lt_succ hlen

/-- C6: the chunker emits the window at offset `(CHUNK_SIZE-CHUNK_OVERLAP)·k`
as its `k`-th chunk: emitted chunk indices are dense from 0, `char_start`
advances by exactly `CHUNK_SIZE - CHUNK_OVERLAP` between consecutive emitted
chunks, `char_end = char_start + len(text)`, every emitted window has at least
the minimum viable length 50, and every window of length ≥ 50 is emitted. -/
theorem chunk_text_spec (text filename : String) :
    (∀ k c, (chunk_text text filename)[k]? = some c →
        c.metadata.chunk_index = k
        ∧ c.metadata.char_start = (CHUNK_SIZE - CHUNK_OVERLAP) * k
        ∧ c.text = String.mk
            ((text.data.drop ((CHUNK_SIZE - CHUNK_OVERLAP) * k)).take CHUNK_SIZE)
        ∧ c.metadata.char_end = c.metadata.char_start + c.text.length
        ∧ 50 ≤ c.text.length)
    ∧ (∀ k c c', (chunk_text text filename)[k]? = some c →
        (chunk_text text filename)[k + 1]? = some c' →
        c'.metadata.char_start = c.metadata.char_start + (CHUNK_SIZE - CHUNK_OVERLAP))
    ∧ (∀ j, (CHUNK_SIZE - CHUNK_OVERLAP) * j + 50 ≤ text.length →
        j < (chunk_text text filename).length) := by
  obtain ⟨hget, hlen⟩ := emitFrom_arith_spec text filename
    ((text.length - 0 + (CHUNK_SIZE - CHUNK_OVERLAP) - 1) / (CHUNK_SIZE - CHUNK_OVERLAP)) 0 0
  have hct : chunk_text text filename
      = emitFrom text filename
          ((List.range ((text.length - 0 + (CHUNK_SIZE - CHUNK_OVERLAP) - 1)
              / (CHUNK_SIZE - CHUNK_OVERLAP))).map
            (fun k => 0 + (CHUNK_SIZE - CHUNK_OVERLAP) * k)) 0 :=
    chunk_text_eq_emitFrom text filename
  have hstep : CHUNK_SIZE - CHUNK_OVERLAP = 800 := rfl
  have hdl : text.length = text.data.length := rfl
  have hfield : ∀ k c, (chunk_text text filename)[k]? = some c →
      c = chunkAt text filename (0 + (CHUNK_SIZE - CHUNK_OVERLAP) * k) (0 + k)
      ∧ 50 ≤ ((text.data.drop (0 + (CHUNK_SIZE - CHUNK_OVERLAP) * k)).take CHUNK_SIZE).length := by
    intro k c hc
    rw [hct] at hc
    have hk : k < (emitFrom text filename
        ((List.range ((text.length - 0 + (CHUNK_SIZE - CHUNK_OVERLAP) - 1)
            / (CHUNK_SIZE - CHUNK_OVERLAP))).map
          (fun k => 0 + (CHUNK_SIZE - CHUNK_OVERLAP) * k)) 0).length := by
      rcases Nat.lt_or_ge k (emitFrom text filename
          ((List.range ((text.length - 0 + (CHUNK_SIZE - CHUNK_OVERLAP) - 1)
              / (CHUNK_SIZE - CHUNK_OVERLAP))).map
            (fun k => 0 + (CHUNK_SIZE - CHUNK_OVERLAP) * k)) 0).length with h | h
      · exact h
      · rw [List.getElem?_eq_none h] at hc
        cases hc
    obtain ⟨hsome, hbound⟩ := hget k hk
    rw [hc] at hsome
    exact ⟨Option.some.inj hsome, hbound⟩
  refine ⟨?_, ?_, ?_⟩
  · intro k c hc
    obtain ⟨hceq, hbound⟩ := hfield k c hc
    subst hceq
    refine ⟨by simp [chunkAt], by simp [chunkAt], by simp [chunkAt], by simp [chunkAt], ?_⟩
    show 50 ≤ ((text.data.drop (0 + (CHUNK_SIZE - CHUNK_OVERLAP) * k)).take CHUNK_SIZE).length
    exact hbound
  · intro k c c' hc hc'
    obtain ⟨hceq, -⟩ := hfield k c hc
    obtain ⟨hceq', -⟩ := hfield (k + 1) c' hc'
    subst hceq
    subst hceq'
    simp only [chunkAt]
    rw [hstep]
    ring
  · intro j hfit
    rw [hstep] at hfit
    rw [hct, hstep]
    rw [hstep] at hlen
    apply hlen j
    · omega
    · omega

/-- C6 witness: a 900-character text yields its second chunk at offset 800
with dense index 1. -/
theorem chunk_text_spec_witness :
    1 < (chunk_text chunk_example_text "doc.pdf").length
    ∧ (chunk_text chunk_example_text "doc.pdf")[1]?.map (fun c => c.metadata.chunk_index)
        = some 1
    ∧ (chunk_text chunk_example_text "doc.pdf")[1]?.map (fun c => c.metadata.char_start)
        = some 800 := by
  obtain ⟨hflds, -, hcomplete⟩ := chunk_text_spec chunk_example_text "doc.pdf"
  have hexlen : chunk_example_text.length = 900 := by
    show (List.replicate 900 'x').length = 900
    rw [List.length_replicate]
  have hlt : 1 < (chunk_text chunk_example_text "doc.pdf").length := by
    apply hcomplete 1
    rw [hexlen]
    decide
  obtain ⟨c, hc⟩ : ∃ c, (chunk_text chunk_example_text "doc.pdf")[1]? = some c :=
    ⟨_, List.getElem?_eq_getElem hlt⟩
  obtain ⟨h1, h2, -, -, -⟩ := hflds 1 c hc
  rw [hc]
  refine ⟨hlt, by simp [h1], by simp [h2]; rfl⟩

lemma py_dict_find_assign {β : Type} (t : List (String × β)) (k q : String) (v : β) :
    py_dict_find (py_dict_assign t k v) q = if k = q then some v else py_dict_find t q := by
  induction t with
  | nil => simp [py_dict_assign, py_dict_find]
  | cons p rest ih =>
    obtain ⟨k0, v0⟩ := p
    by_cases hk : k0 = k
    · subst hk
      simp only [py_dict_assign, if_pos rfl, py_dict_find]
      by_cases hq : k0 = q
      · simp [hq]
      · simp [hq]
    · simp only [py_dict_assign, if_neg hk, py_dict_find]
      by_cases hq : k0 = q
      · subst hq
        have : ¬(k = k0) := fun h => hk h.symm
        simp [this]
      · simp [hq, ih]

lemma py_dict_find_update_of_not_mem {β : Type} (t new : List (String × β)) (q : String)
    (h : q ∉ new.map Prod.fst) :
    py_dict_find (py_dict_update t new) q = py_dict_find t q := by
  induction new generalizing t with
  | nil => rfl
  | cons p rest ih =>
    obtain ⟨k, v⟩ := p
    have hq : ¬(k = q) := by
      intro hkq
      exact h (by simp [hkq])
    have hrest : q ∉ rest.map Prod.fst := fun hm => h (by simp [hm])
    show py_dict_find (py_dict_update (py_dict_assign t k v) rest) q = py_dict_find t q
    rw [ih (py_dict_assign t k v) hrest, py_dict_find_assign, if_neg hq]

lemma py_dict_find_update_of_mem {β : Type} (t new : List (String × β)) (q : String) (v : β)
    (hnd : (new.map Prod.fst).Nodup) (h : py_dict_find new q = some v) :
    py_dict_find (py_dict_update t new) q = some v := by
  induction new generalizing t with
  | nil => cases h
  | cons p rest ih =>
    obtain ⟨k, w⟩ := p
    have hnd' : k ∉ rest.map Prod.fst ∧ (rest.map Prod.fst).Nodup := by
      rw [List.map_cons] at hnd
      exact List.nodup_cons.mp hnd
    show py_dict_find (py_dict_update (py_dict_assign t k w) rest) q = some v
    by_cases hk : k = q
    · subst hk
      have hv : w = v := by
        simpa [py_dict_find] using h
      subst hv
      rw [py_dict_find_update_of_not_mem _ _ _ hnd'.1, py_dict_find_assign, if_pos rfl]
    · have h' : py_dict_find rest q = some v := by
        simpa [py_dict_find, hk] using h
      exact ih (py_dict_assign t k w) hnd'.2 h'

lemma run_records_keys_sublist (ftp : List SourceFile) :
    ((run_records ftp).map Prod.fst).Sublist (ftp.map (fun f => f.filename)) := by
  induction ftp with
  | nil => simp [run_records]
  | cons f rest ih =>
    by_cases hf : f.text ≠ ""
    · have hrr : run_records (f :: rest)
          = (f.filename, ⟨f.size, f.mtime, (chunk_text f.text f.filename).length⟩)
            :: run_records rest := by
        simp [run_records, hf]
      rw [hrr, List.map_cons, List.map_cons]
      exact List.Sublist.cons₂ _ ih
    · have hrr : run_records (f :: rest) = run_records rest := by
        simp [run_records, hf]
      rw [hrr, List.map_cons]
      exact List.Sublist.cons _ ih

lemma run_records_find_of_mem (ftp : List SourceFile) (f : SourceFile)
    (hnd : (ftp.map (fun f => f.filename)).Nodup) (hmem : f ∈ ftp) (htext : f.text ≠ "") :
    py_dict_find (run_records ftp) f.filename
      = some ⟨f.size, f.mtime, (chunk_text f.text f.filename).length⟩ := by
  induction ftp with
  | nil => cases hmem
  | cons g rest ih =>
    have hnd' : g.filename ∉ rest.map (fun f => f.filename)
        ∧ (rest.map (fun f => f.filename)).Nodup := by
      rw [List.map_cons] at hnd
      exact List.nodup_cons.mp hnd
    rcases List.mem_cons.mp hmem with rfl | hrest
    · have hrr : run_records (f :: rest)
          = (f.filename, ⟨f.size, f.mtime, (chunk_text f.text f.filename).length⟩)
            :: run_records rest := by
        simp [run_records, htext]
      rw [hrr]
      simp [py_dict_find]
    · have hne : ¬(g.filename = f.filename) := by
        intro he
        apply hnd'.1
        rw [he]
        exact List.mem_map.mpr ⟨f, hrest, rfl⟩
      by_cases hg : g.text ≠ ""
      · have hrr : run_records (g :: rest)
            = (g.filename, ⟨g.size, g.mtime, (chunk_text g.text g.filename).length⟩)
              :: run_records rest := by
          simp [run_records, hg]
        rw [hrr]
        show py_dict_find _ f.filename = _
        rw [show py_dict_find
            ((g.filename, (⟨g.size, g.mtime, (chunk_text g.text g.filename).length⟩ : FileRecord))
              :: run_records rest) f.filename
            = if g.filename = f.filename then
                some (⟨g.size, g.mtime, (chunk_text g.text g.filename).length⟩ : FileRecord)
              else py_dict_find (run_records rest) f.filename from rfl]
        rw [if_neg hne]
        exact ih hnd'.2 hrest
      · have hrr : run_records (g :: rest) = run_records rest := by
          simp [run_records, hg]
        rw [hrr]
        exact ih hnd'.2 hrest

lemma chunk_text_length_pos (text filename : String) (h : 50 ≤ text.length) :
    chunk_text text filename ≠ [] := by
  obtain ⟨-, hlen⟩ := emitFrom_arith_spec text filename
    ((text.length - 0 + (CHUNK_SIZE - CHUNK_OVERLAP) - 1) / (CHUNK_SIZE - CHUNK_OVERLAP)) 0 0
  have hct : chunk_text text filename
      = emitFrom text filename
          ((List.range ((text.length - 0 + (CHUNK_SIZE - CHUNK_OVERLAP) - 1)
              / (CHUNK_SIZE - CHUNK_OVERLAP))).map
            (fun k => 0 + (CHUNK_SIZE - CHUNK_OVERLAP) * k)) 0 :=
    chunk_text_eq_emitFrom text filename
  have hstep : CHUNK_SIZE - CHUNK_OVERLAP = 800 := rfl
  have hdl : text.length = text.data.length := rfl
  rw [hstep] at hlen
  have h0 : 0 < (chunk_text text filename).length := by
    rw [hct, hstep]
    exact hlen 0 (by omega) (by omega)
  intro hnil
  rw [hnil] at h0
  simp at h0

lemma text_ne_empty_of_length (s : String) (h : 50 ≤ s.length) : s ≠ "" := by
  intro he
  rw [he] at h
  simp [String.length] at h

lemma skip_file_iff (f : SourceFile) (pf : Tracking) :
    skip_file f pf = true ↔
      ∃ r, py_dict_find pf f.filename = some r ∧ r.size = f.size ∧ r.mtime = f.mtime := by
  unfold skip_file file_has_changed
  cases hfind : py_dict_find pf f.filename with
  | none =>
    simp
  | some r =>
    show (true && !(if f.size = r.size ∧ f.mtime = r.mtime then false else true)) = true ↔ _
    by_cases hc : f.size = r.size ∧ f.mtime = r.mtime
    · rw [if_pos hc]
      exact ⟨fun _ => ⟨r, rfl, hc.1.symm, hc.2.symm⟩, fun _ => rfl⟩
    · rw [if_neg hc]
      refine ⟨fun h => absurd h (by decide), ?_⟩
      rintro ⟨r', hr', h1, h2⟩
      cases hr'
      exact absurd ⟨h1.symm, h2.symm⟩ hc

lemma ingest_run_skips_all (files : List SourceFile) (pf : Tracking) (fail : Nat → Bool)
    (hnd : (files.map (fun f => f.filename)).Nodup)
    (hlen : ∀ f ∈ files_to_process files pf, 50 ≤ f.text.length) :
    ∀ f ∈ files, skip_file f (ingest_run files pf fail).tracking = true := by
  intro f hf
  by_cases hftp : (files_to_process files pf).isEmpty
  · have htr : (ingest_run files pf fail).tracking = pf := by
      simp [ingest_run, hftp]
    rw [htr]
    have hall := List.filter_eq_nil_iff.mp (List.isEmpty_iff.mp hftp)
    have := hall f hf
    simpa using this
  · have hnonempty : files_to_process files pf ≠ [] := by
      intro h
      rw [h] at hftp
      simp at hftp
    have hchunks : ¬(run_all_chunks (files_to_process files pf)).isEmpty := by
      obtain ⟨g, rest, hgr⟩ := List.exists_cons_of_ne_nil hnonempty
      intro hempty
      have hnil := List.isEmpty_iff.mp hempty
      unfold run_all_chunks at hnil
      have hg : g ∈ files_to_process files pf := by
        rw [hgr]
        simp
      have hg50 := hlen g hg
      have hgtext := text_ne_empty_of_length _ hg50
      have hgchunks := chunk_text_length_pos g.text g.filename hg50
      have : (if g.text ≠ "" then chunk_text g.text g.filename else []) = [] := by
        apply (List.flatten_eq_nil_iff.mp hnil)
        rw [hgr]
        simp
      rw [if_pos hgtext] at this
      exact hgchunks this
    have htr : (ingest_run files pf fail).tracking
        = py_dict_update pf (run_records (files_to_process files pf)) := by
      simp [ingest_run, hftp, hchunks]
    rw [htr]
    have hnd_ftp : ((files_to_process files pf).map (fun f => f.filename)).Nodup := by
      refine List.Nodup.sublist ?_ hnd
      exact List.Sublist.map _ (List.filter_sublist _)
    have hnd_rec : ((run_records (files_to_process files pf)).map Prod.fst).Nodup :=
      List.Nodup.sublist (run_records_keys_sublist _) hnd_ftp
    by_cases hfin : f ∈ files_to_process files pf
    · have h50 := hlen f hfin
      have htext := text_ne_empty_of_length _ h50
      have hfindrec := run_records_find_of_mem _ f hnd_ftp hfin htext
      have := py_dict_find_update_of_mem pf _ f.filename _ hnd_rec hfindrec
      rw [skip_file_iff]
      exact ⟨_, this, rfl, rfl⟩
    · have hskip : skip_file f pf = true := by
        unfold files_to_process at hfin
        by_contra hns
        exact hfin (List.mem_filter.mpr ⟨hf, by simpa using hns⟩)
      have hnotkey : f.filename ∉ (run_records (files_to_process files pf)).map Prod.fst := by
        intro hkey
        have hsub := (run_records_keys_sublist (files_to_process files pf)).subset hkey
        obtain ⟨g, hgmem, hgeq⟩ := List.mem_map.mp hsub
        have hgfiles : g ∈ files := (List.filter_sublist _).subset hgmem
        have : g = f := List.inj_on_of_nodup_map hnd hgfiles hf hgeq
        rw [this] at hgmem
        exact hfin hgmem
      rw [skip_file_iff] at hskip ⊢
      rw [py_dict_find_update_of_not_mem pf _ _ hnotkey]
      exact hskip

/-- C3: ingestion skips a file exactly when a record with its filename exists
with unchanged size and mtime; consequently a second run over an unchanged
directory, after a completed first run in which every processed file yielded
at least the minimum viable text, puts zero files up for processing. -/
theorem ingestion_skip_iff_idempotent :
    (∀ (f : SourceFile) (pf : Tracking), skip_file f pf = true ↔
        ∃ r, py_dict_find pf f.filename = some r ∧ r.size = f.size ∧ r.mtime = f.mtime)
    ∧ ∀ (files : List SourceFile) (pf : Tracking) (fail fail' : Nat → Bool),
        (files.map (fun f => f.filename)).Nodup →
        (∀ f ∈ files_to_process files pf, 50 ≤ f.text.length) →
        (ingest_run files ((ingest_run files pf fail).tracking) fail').files_processed = 0 := by
  refine ⟨skip_file_iff, ?_⟩
  intro files pf fail fail' hnd hlen
  have hall := ingest_run_skips_all files pf fail hnd hlen
  set T := (ingest_run files pf fail).tracking with hT
  have hempty : files_to_process files T = [] := by
    apply List.filter_eq_nil_iff.mpr
    intro f hf
    simp [hall f hf]
  simp [ingest_run, hempty]

/-- C3 witness: a concrete one-file directory is fully skipped on the second
run. -/
theorem ingestion_skip_iff_idempotent_witness :
    (ingest_run ingestion_example_files
        ((ingest_run ingestion_example_files [] (fun _ => false)).tracking)
        (fun _ => false)).files_processed = 0 :=
  ingestion_skip_iff_idempotent.2 ingestion_example_files [] (fun _ => false) (fun _ => false)
    (by decide) (by decide)

lemma foldl_add_length (l : List (Nat × List Chunk)) :
    l.foldl (fun acc p => acc + p.2.length) 0 = (l.map (fun p => p.2.length)).sum := by
  suffices h : ∀ init, l.foldl (fun acc p => acc + p.2.length) init
      = init + (l.map (fun p => p.2.length)).sum by
    simpa using h 0
  induction l with
  | nil =>
    intro init
    simp
  | cons x rest ih =>
    intro init
    simp only [List.foldl_cons, List.map_cons, List.sum_cons]
    rw [ih]
    omega

set_option maxRecDepth 20000 in
/-- C4 counterexample: with every batch failing, zero vectors are upserted,
yet the file's ProcessedFileRecord is still persisted as updated at the end
of the run — contradicting the claim that files of failed batches are not
marked. -/
theorem ingest_run_marks_failed_batch :
    (ingest_run ingestion_example_files [] (fun _ => true)).total_upserted = 0
    ∧ (ingest_run ingestion_example_files [] (fun _ => true)).files_processed = 1
    ∧ py_dict_find (ingest_run ingestion_example_files [] (fun _ => true)).tracking "a.pdf"
        = some ⟨4321, 99, 1⟩ := by
  refine ⟨by decide, by decide, by decide⟩

/-- C4 (amended): a failing batch does not abort the run — every batch whose
embedding/upsert does not fail contributes its full record count, and the
persisted tracking (and file/batch bookkeeping) is entirely independent of
which batches failed; consequently the ProcessedFileRecord of every file with
non-empty extracted text is marked as updated at the end of the run even when
its chunks belong to failed batches. -/
theorem ingest_run_batch_failure_tolerant (files : List SourceFile) (pf : Tracking)
    (fail fail' : Nat → Bool) :
    (ingest_run files pf fail).tracking = (ingest_run files pf fail').tracking
    ∧ (ingest_run files pf fail).files_processed = (ingest_run files pf fail').files_processed
    ∧ (ingest_run files pf fail).total_upserted
        = (((prepare_batches (run_all_chunks (files_to_process files pf)) BATCH_SIZE).enum.filter
              (fun p => !(fail p.1))).map (fun p => p.2.length)).sum
    ∧ ((files.map (fun f => f.filename)).Nodup →
        ∀ f ∈ files_to_process files pf, f.text ≠ "" →
        ¬(run_all_chunks (files_to_process files pf)).isEmpty →
        py_dict_find (ingest_run files pf fail).tracking f.filename
          = some ⟨f.size, f.mtime, (chunk_text f.text f.filename).length⟩) := by
  refine ⟨?_, ?_, ?_, ?_⟩
  · by_cases h1 : (files_to_process files pf).isEmpty
    · simp [ingest_run, h1]
    · by_cases h2 : (run_all_chunks (files_to_process files pf)).isEmpty
      · simp [ingest_run, h1, h2]
      · simp [ingest_run, h1, h2]
  · by_cases h1 : (files_to_process files pf).isEmpty
    · simp [ingest_run, h1]
    · by_cases h2 : (run_all_chunks (files_to_process files pf)).isEmpty
      · simp [ingest_run, h1, h2]
      · simp [ingest_run, h1, h2]
  · by_cases h1 : (files_to_process files pf).isEmpty
    · have he : files_to_process files pf = [] := List.isEmpty_iff.mp h1
      simp [ingest_run, h1, he, run_all_chunks, prepare_batches, py_range, BATCH_SIZE]
    · by_cases h2 : (run_all_chunks (files_to_process files pf)).isEmpty
      · have he : run_all_chunks (files_to_process files pf) = [] := List.isEmpty_iff.mp h2
        simp [ingest_run, h1, h2, he, prepare_batches, py_range, BATCH_SIZE]
      · simp [ingest_run, h1, h2, foldl_add_length]
  · intro hnd f hf htext hne
    have hftp : ¬(files_to_process files pf).isEmpty := by
      intro h
      rw [List.isEmpty_iff.mp h] at hf
      cases hf
    have htr : (ingest_run files pf fail).tracking
        = py_dict_update pf (run_records (files_to_process files pf)) := by
      simp [ingest_run, hftp, hne]
    rw [htr]
    have hnd_ftp : ((files_to_process files pf).map (fun f => f.filename)).Nodup :=
      List.Nodup.sublist (List.Sublist.map _ (List.filter_sublist _)) hnd
    have hnd_rec : ((run_records (files_to_process files pf)).map Prod.fst).Nodup :=
      List.Nodup.sublist (run_records_keys_sublist _) hnd_ftp
    exact py_dict_find_update_of_mem pf _ f.filename _ hnd_rec
      (run_records_find_of_mem _ f hnd_ftp hf htext)

set_option maxRecDepth 20000 in
/-- C4 witness: on the concrete one-file directory, the persisted tracking is
the same whether every batch fails or none does, and the file's record is
marked updated under an all-failing oracle. -/
theorem ingest_run_batch_failure_tolerant_witness :
    (ingest_run ingestion_example_files [] (fun _ => true)).tracking
        = (ingest_run ingestion_example_files [] (fun _ => false)).tracking
    ∧ py_dict_find (ingest_run ingestion_example_files [] (fun _ => true)).tracking
        "a.pdf" = some ⟨4321, 99, 1⟩ := by
  obtain ⟨h1, -, -, h4⟩ := ingest_run_batch_failure_tolerant ingestion_example_files []
    (fun _ => true) (fun _ => false)
  refine ⟨h1, ?_⟩
  have hfind := h4 (by decide)
    { filename := "a.pdf", size := 4321, mtime := 99, text := String.mk (List.replicate 60 'y') }
    (by decide) (by decide) (by decide)
  have hlen : (chunk_text (String.mk (List.replicate 60 'y')) "a.pdf").length = 1 := by decide
  rw [hlen] at hfind
  exact hfind

lemma process_failure_state (user_input : String) (env : Env) (st : AppState)
    (hfail : (process_user_query user_input env st).2 = TurnOutcome.searchFailed
      ∨ ∃ sent, (process_user_query user_input env st).2 = TurnOutcome.completionFailed sent) :
    (process_user_query user_input env st).1.messages = st.messages
    ∧ (process_user_query user_input env st).1.search_history = st.search_history
    ∧ (process_user_query user_input env st).1.query_cache = st.query_cache
    ∧ (process_user_query user_input env st).1.chat_count = st.chat_count := by
  unfold process_user_query at hfail ⊢
  by_cases hv : validate_query user_input
  · simp only [hv, Bool.not_true, Bool.false_eq_true, if_false] at hfail ⊢
    cases hfind : py_dict_find st.query_cache (py_strip (py_lower user_input)) with
    | some e =>
      rw [hfind] at hfail
      by_cases hfr : env.now - e.timestamp < 300
      · simp [hfr] at hfail
      · simp only [hfr, if_false] at hfail ⊢
        cases hres : env.results with
        | none => exact ⟨rfl, rfl, rfl, rfl⟩
        | some r =>
          rw [hres] at hfail
          cases hcomp : env.completion with
          | none => exact ⟨rfl, rfl, rfl, rfl⟩
          | some resp =>
            rw [hcomp] at hfail
            simp at hfail
    | none =>
      rw [hfind] at hfail
      cases hres : env.results with
      | none => exact ⟨rfl, rfl, rfl, rfl⟩
      | some r =>
        rw [hres] at hfail
        cases hcomp : env.completion with
        | none => exact ⟨rfl, rfl, rfl, rfl⟩
        | some resp =>
          rw [hcomp] at hfail
          simp at hfail
  · simp only [hv] at hfail ⊢
    simp at hfail

/-- C9 counterexample: a valid query whose vector search fails still changes
the conversation history — the user's message was appended before processing,
so the history is not unchanged by the failed turn. -/
theorem failed_turn_changes_history :
    (handle_query_input "What is theft?" failing_env init_state).2
        = TurnOutcome.searchFailed
    ∧ (handle_query_input "What is theft?" failing_env init_state).1.messages
        ≠ init_state.messages
    ∧ (handle_query_input "What is theft?" failing_env init_state).1.messages
        = init_state.messages ++ [⟨"user", "What is theft?"⟩] := by
  refine ⟨by decide, by decide, by decide⟩

/-- C9 (amended): when a remote call fails during a user turn, no assistant
message is appended (the turn is not recorded as answered) and the search
history and query cache are untouched — but the user's message was already
appended to the conversation history before processing, so the history gains
exactly that one user entry. -/
theorem failed_turn_not_recorded (user_input : String) (env : Env) (st : AppState)
    (hfail : (handle_query_input user_input env st).2 = TurnOutcome.searchFailed
      ∨ ∃ sent, (handle_query_input user_input env st).2
          = TurnOutcome.completionFailed sent) :
    (handle_query_input user_input env st).1.messages
        = st.messages ++ [⟨"user", user_input⟩]
    ∧ (handle_query_input user_input env st).1.search_history = st.search_history
    ∧ (handle_query_input user_input env st).1.query_cache = st.query_cache := by
  obtain ⟨hm, hsh, hqc, -⟩ := process_failure_state user_input env
    { st with
      messages := st.messages ++ [⟨"user", user_input⟩]
      chat_count := st.chat_count + 1 } hfail
  exact ⟨hm, hsh, hqc⟩

/-- C9 witness: the amended statement at the concrete failing turn. -/
theorem failed_turn_not_recorded_witness :
    (handle_query_input "What is theft?" failing_env init_state).1.messages
        = init_state.messages ++ [⟨"user", "What is theft?"⟩]
    ∧ (handle_query_input "What is theft?" failing_env init_state).1.search_history
        = init_state.search_history
    ∧ (handle_query_input "What is theft?" failing_env init_state).1.query_cache
        = init_state.query_cache :=
  failed_turn_not_recorded "What is theft?" failing_env init_state (Or.inl (by decide))

lemma py_dict_assign_length {β : Type} (t : List (String × β)) (k : String) (v : β) :
    (py_dict_assign t k v).length ≤ t.length + 1 := by
  induction t with
  | nil => simp [py_dict_assign]
  | cons p rest ih =>
    obtain ⟨k0, v0⟩ := p
    by_cases hk : k0 = k
    · simp [py_dict_assign, hk]
    · simp only [py_dict_assign, if_neg hk, List.length_cons]
      omega

lemma py_min_foldl_spec (xs : QueryCache) (x : String × CacheEntry) :
    (xs.foldl (fun m y => if y.2.timestamp < m.2.timestamp then y else m) x) ∈ x :: xs
    ∧ (xs.foldl (fun m y => if y.2.timestamp < m.2.timestamp then y else m) x).2.timestamp
        ≤ x.2.timestamp
    ∧ ∀ p ∈ xs,
        (xs.foldl (fun m y => if y.2.timestamp < m.2.timestamp then y else m) x).2.timestamp
          ≤ p.2.timestamp := by
  induction xs generalizing x with
  | nil => exact ⟨by simp, le_refl _, by simp⟩
  | cons y ys ih =>
    obtain ⟨ihmem, ihle, ihall⟩ := ih (if y.2.timestamp < x.2.timestamp then y else x)
    have hle_x : (if y.2.timestamp < x.2.timestamp then y else x).2.timestamp ≤ x.2.timestamp := by
      split
      · omega
      · exact le_refl _
    have hle_y : (if y.2.timestamp < x.2.timestamp then y else x).2.timestamp ≤ y.2.timestamp := by
      split
      · exact le_refl _
      · omega
    refine ⟨?_, ?_, ?_⟩
    · simp only [List.foldl_cons]
      rcases List.mem_cons.mp ihmem with heq | hmem
    -- the running minimum is either the head comparison result or deeper in the tail
      · rw [heq]
        split
        · simp
        · simp
      · simp [hmem]
    · simp only [List.foldl_cons]
      exact le_trans ihle hle_x
    · intro p hp
      simp only [List.foldl_cons]
      rcases List.mem_cons.mp hp with rfl | hmem
      · exact le_trans ihle hle_y
      · exact ihall p hmem

lemma py_min_spec (c : QueryCache) (hne : c ≠ []) :
    ∃ ok oe, py_min_by_timestamp c = some ok ∧ (ok, oe) ∈ c
      ∧ (∀ p ∈ c, oe.timestamp ≤ p.2.timestamp)
      ∧ evict_oldest c = py_dict_del c ok := by
  obtain ⟨x, xs, rfl⟩ := List.exists_cons_of_ne_nil hne
  obtain ⟨hmem, -, hall⟩ := py_min_foldl_spec xs x
  set m := xs.foldl (fun m y => if y.2.timestamp < m.2.timestamp then y else m) x with hm
  refine ⟨m.1, m.2, rfl, by simpa using hmem, ?_, ?_⟩
  · intro p hp
    rcases List.mem_cons.mp hp with rfl | hmem'
    · exact (py_min_foldl_spec xs p).2.1
    · exact hall p hmem'
  · simp [evict_oldest, py_min_by_timestamp, hm]

lemma evict_oldest_length_lt (c : QueryCache) (hne : c ≠ []) :
    (evict_oldest c).length < c.length := by
  obtain ⟨ok, oe, -, hmem, -, hdel⟩ := py_min_spec c hne
  rw [hdel]
  unfold py_dict_del
  apply List.length_filter_lt_length_iff_exists.mpr
  exact ⟨(ok, oe), hmem, by simp⟩

lemma process_cache_cases (user_input : String) (env : Env) (st : AppState) :
    (process_user_query user_input env st).1.query_cache = st.query_cache
    ∨ ∃ entry, (process_user_query user_input env st).1.query_cache
        = if 10 < (py_dict_assign st.query_cache (py_strip (py_lower user_input)) entry).length
          then evict_oldest (py_dict_assign st.query_cache (py_strip (py_lower user_input)) entry)
          else py_dict_assign st.query_cache (py_strip (py_lower user_input)) entry := by
  unfold process_user_query
  by_cases hv : validate_query user_input
  · simp only [hv, Bool.not_true, Bool.false_eq_true, if_false]
    cases hfind : py_dict_find st.query_cache (py_strip (py_lower user_input)) with
    | some e =>
      by_cases hfr : env.now - e.timestamp < 300
      · left
        simp [hfr]
      · simp only [hfr, if_false]
        cases env.results with
        | none => exact Or.inl rfl
        | some r =>
          cases env.completion with
          | none => exact Or.inl rfl
          | some resp =>
            right
            refine ⟨{ response := resp, sources := format_sources r, timestamp := env.now }, ?_⟩
            by_cases hgt : 10 < (py_dict_assign st.query_cache (py_strip (py_lower user_input))
                { response := resp, sources := format_sources r, timestamp := env.now }).length
            · simp [hgt]
            · simp [hgt]
    | none =>
      cases env.results with
      | none => exact Or.inl rfl
      | some r =>
        cases env.completion with
        | none => exact Or.inl rfl
        | some resp =>
          right
          refine ⟨{ response := resp, sources := format_sources r, timestamp := env.now }, ?_⟩
          by_cases hgt : 10 < (py_dict_assign st.query_cache (py_strip (py_lower user_input))
              { response := resp, sources := format_sources r, timestamp := env.now }).length
          · simp [hgt]
          · simp [hgt]
  · left
    simp [hv]

/-- C10: the per-session query cache is capacity-bounded at 10 entries after
every processed turn; when the store step pushes the cache past 10 entries the
cleanup deletes exactly a key holding the minimal (oldest) timestamp, bringing
it back to at most 10; and a cached response is reused — skipping the remote
search and completion calls — exactly when the query normalized by
lower-then-strip hits an entry younger than 300 seconds. -/
theorem query_cache_policy :
    (∀ (user_input : String) (env : Env) (st : AppState),
        st.query_cache.length ≤ 10 →
        (process_user_query user_input env st).1.query_cache.length ≤ 10)
    ∧ (∀ (cache : QueryCache) (key : String) (entry : CacheEntry),
        cache.length ≤ 10 →
        10 < (py_dict_assign cache key entry).length →
        ∃ ok oe, py_min_by_timestamp (py_dict_assign cache key entry) = some ok
          ∧ (ok, oe) ∈ py_dict_assign cache key entry
          ∧ (∀ p ∈ py_dict_assign cache key entry, oe.timestamp ≤ p.2.timestamp)
          ∧ evict_oldest (py_dict_assign cache key entry)
              = py_dict_del (py_dict_assign cache key entry) ok
          ∧ (evict_oldest (py_dict_assign cache key entry)).length ≤ 10)
    ∧ (∀ (user_input : String) (env : Env) (st : AppState),
        (∃ r, (process_user_query user_input env st).2 = TurnOutcome.cacheHit r)
          ↔ validate_query user_input = true
            ∧ fresh_cache_hit user_input st.query_cache env.now = true)
    ∧ (∀ (user_input : String) (env : Env) (st : AppState) (e : CacheEntry),
        validate_query user_input = true →
        py_dict_find st.query_cache (py_strip (py_lower user_input)) = some e →
        env.now - e.timestamp < 300 →
        process_user_query user_input env st
          = ({ st with
                messages := st.messages ++ [⟨"assistant", e.response⟩]
                last_sources := e.sources }, TurnOutcome.cacheHit e.response)
        ∧ process_user_query user_input env st
          = process_user_query user_input
              { env with results := none, completion := none } st) := by
  refine ⟨?_, ?_, ?_, ?_⟩
  · intro user_input env st hlen
    rcases process_cache_cases user_input env st with h | ⟨entry, h⟩
    · rw [h]
      exact hlen
    · rw [h]
      by_cases hgt : 10 < (py_dict_assign st.query_cache (py_strip (py_lower user_input))
          entry).length
      · rw [if_pos hgt]
        have hne : py_dict_assign st.query_cache (py_strip (py_lower user_input)) entry ≠ [] := by
          intro hnil
          rw [hnil] at hgt
          simp at hgt
        have hlt := evict_oldest_length_lt _ hne
        have hassign := py_dict_assign_length st.query_cache
          (py_strip (py_lower user_input)) entry
        omega
      · rw [if_neg hgt]
        omega
  · intro cache key entry hlen hgt
    have hne : py_dict_assign cache key entry ≠ [] := by
      intro hnil
      rw [hnil] at hgt
      simp at hgt
    obtain ⟨ok, oe, hmin, hmem, hall, hdel⟩ := py_min_spec _ hne
    refine ⟨ok, oe, hmin, hmem, hall, hdel, ?_⟩
    have hlt := evict_oldest_length_lt _ hne
    have hassign := py_dict_assign_length cache key entry
    omega
  · intro user_input env st
    constructor
    · rintro ⟨r, hr⟩
      unfold process_user_query at hr
      by_cases hv : validate_query user_input
      · simp only [hv, Bool.not_true, Bool.false_eq_true, if_false] at hr
        refine ⟨hv, ?_⟩
        unfold fresh_cache_hit
        cases hfind : py_dict_find st.query_cache (py_strip (py_lower user_input)) with
        | some e =>
          rw [hfind] at hr
          by_cases hfr : env.now - e.timestamp < 300
          · simpa using hfr
          · exfalso
            simp only [hfr, if_false] at hr
            cases hres : env.results with
            | none =>
              rw [hres] at hr
              simp at hr
            | some rr =>
              rw [hres] at hr
              cases hcomp : env.completion with
              | none =>
                rw [hcomp] at hr
                simp at hr
              | some resp =>
                rw [hcomp] at hr
                simp at hr
        | none =>
          exfalso
          rw [hfind] at hr
          cases hres : env.results with
          | none =>
            rw [hres] at hr
            simp at hr
          | some rr =>
            rw [hres] at hr
            cases hcomp : env.completion with
            | none =>
              rw [hcomp] at hr
              simp at hr
            | some resp =>
              rw [hcomp] at hr
              simp at hr
      · simp [hv] at hr
    · rintro ⟨hv, hfresh⟩
      unfold fresh_cache_hit at hfresh
      cases hfind : py_dict_find st.query_cache (py_strip (py_lower user_input)) with
      | none =>
        rw [hfind] at hfresh
        cases hfresh
      | some e =>
        rw [hfind] at hfresh
        have hfr : env.now - e.timestamp < 300 := of_decide_eq_true hfresh
        refine ⟨e.response, ?_⟩
        unfold process_user_query
        simp [hv, hfind, hfr]
  · intro user_input env st e hv hfind hfr
    constructor
    · unfold process_user_query
      simp [hv, hfind, hfr]
    · unfold process_user_query
      simp [hv, hfind, hfr]

/-- C10 witness: from a state holding a fresh cached entry, a repeated query
is answered from the cache without consulting the remote services, and the
cache stays within its bound. -/
theorem query_cache_policy_witness :
    (process_user_query "What is law?" ok_env cached_state).1.query_cache.length ≤ 10
    ∧ process_user_query "What is law?" ok_env cached_state
        = ({ cached_state with
              messages := cached_state.messages ++ [⟨"assistant", "Cached answer"⟩]
              last_sources := [] }, TurnOutcome.cacheHit "Cached answer")
    ∧ process_user_query "What is law?" ok_env cached_state
        = process_user_query "What is law?"
            { ok_env with results := none, completion := none } cached_state := by
  obtain ⟨h1, -, -, h4⟩ := query_cache_policy
  obtain ⟨ha, hb⟩ := h4 "What is law?" ok_env cached_state
    { response := "Cached answer", sources := [], timestamp := 900 }
    (by decide) rfl (by decide)
  exact ⟨h1 "What is law?" ok_env cached_state (by decide), ha, hb⟩

/-- C5 witness: on a small concrete list the whole input fits the budget and
is kept in full. -/
theorem optimized_messages_spec_witness :
    optimized_messages [(⟨"user", "hello"⟩ : ChatMessage)] <:+ [(⟨"user", "hello"⟩ : ChatMessage)]
    ∧ total_content_length (optimized_messages [(⟨"user", "hello"⟩ : ChatMessage)]) ≤ 6000
    ∧ ([(⟨"user", "hello"⟩ : ChatMessage)]).length
        ≤ (optimized_messages [(⟨"user", "hello"⟩ : ChatMessage)]).length := by
  obtain ⟨h1, h2, h3⟩ := optimized_messages_spec [(⟨"user", "hello"⟩ : ChatMessage)]
  exact ⟨h1, h2, h3 _ (List.suffix_refl _) (by decide)⟩

end LawChat
